import Mathlib

/-!
Verification development for the ETL transformation module
(scripts/transformer.py) of the Projet-de-BI repository.

The Python functions are shallowly embedded as pure Lean functions:
pandas DataFrames become lists of rows (typed records for the fixed
schemas of the pipeline, association lists for the schema-free Source
Loader), pandas merge/groupby/drop_duplicates become explicit list
operations with the same ordering semantics, and the in-place column
assignment of create_date_dimension becomes explicit state passing
(the function returns the updated input next to its output).

String conventions: Python str.lower / str.upper / str.strip /
str.replace are modelled character-wise on the underlying character
list, using the ASCII case maps of Lean (Char.toLower / Char.toUpper),
which agree with Python on the ASCII data this pipeline handles.
-/

/-- Whitespace as stripped by Python str.strip: space, tab, LF, VT, FF, CR. -/
def pyWS (c : Char) : Bool :=
  c.toNat = 32 || c.toNat = 9 || c.toNat = 10 || c.toNat = 11 ||
  c.toNat = 12 || c.toNat = 13

/-- Model of Python str.strip on a character list: drop leading and
trailing whitespace. -/
def trimChars (l : List Char) : List Char :=
  ((l.dropWhile pyWS).reverse.dropWhile pyWS).reverse

/-- Model of Python str.replace(c, "") for a single character c. -/
def removeChar (c : Char) (l : List Char) : List Char :=
  l.filter (fun d => d ≠ c)

/-- Embedding of the column transform in standardize_column_names:
col.lower().strip().replace(' ', '').replace('_', ''). -/
def normalizeName (s : String) : String :=
  String.mk (removeChar '_' (removeChar ' ' (trimChars (s.data.map Char.toLower))))

/-- Embedding of the natural-key normalization used for customer ids:
.astype(str).str.upper().str.strip(). -/
def normKey (s : String) : String :=
  String.mk (trimChars (s.data.map Char.toUpper))

/-- Model of Python str.lower on a String, character-wise. -/
def pyLower (s : String) : String := String.mk (s.data.map Char.toLower)

/-- Keep the first row for every key, dropping later rows whose key was
already seen; this is pandas drop_duplicates(subset, keep='first')
generalized over a key projection, with an accumulator of seen keys. -/
def dropDupBy {α : Type} {κ : Type} [DecidableEq κ] (key : α → κ) :
    List α → List κ → List α
  | [], _ => []
  | r :: rs, seen =>
    if key r ∈ seen then dropDupBy key rs seen
    else r :: dropDupBy key rs (key r :: seen)

/-- First-occurrence deduplication of a list (used both for pandas
unique() and as the deterministic stand-in for Python set iteration
order in the region aggregation). -/
def dedupFirst {α : Type} [DecidableEq α] (l : List α) : List α :=
  dropDupBy id l []

/-- Embedding of pandas merge(how='left'): each left row is paired with
every matching right row in right order, or kept once with the missing
combiner when no right row matches; left row order is preserved. -/
def leftJoin {α β γ : Type} {κ : Type} [DecidableEq κ]
    (ls : List α) (rs : List β) (kL : α → κ) (kR : β → κ)
    (comb : α → β → γ) (miss : α → γ) : List γ :=
  ls.flatMap (fun l =>
    match rs.filter (fun r => kR r = kL l) with
    | [] => [miss l]
    | m :: ms => (m :: ms).map (comb l))

/-- A row of a schema-free raw table: an association list from
normalized column name to cell text. -/
abbrev RawRow := List (String × String)

/-- A schema-free table as handled by the Source Loader: the column
list plus the rows. -/
structure Frame where
  cols : List String
  rows : List RawRow
deriving DecidableEq, Repr

/-- Embedding of standardize_column_names: every column name is passed
through the lower/strip/despace/deunderscore normalization. -/
def standardize_column_names (f : Frame) : Frame :=
  { cols := f.cols.map normalizeName,
    rows := f.rows.map (fun r => r.map (fun p => (normalizeName p.1, p.2))) }

/-- Key projection of a row for deduplication: the tuple of cell values
of the key columns, a missing cell reading as none (pandas NaN, which
drop_duplicates treats as equal to NaN). -/
def rowKey (keys : List String) (r : RawRow) : List (Option String) :=
  keys.map (fun k => List.lookup k r)

/-- Embedding of load_source_data: normalize the column names of every
source file, concatenate the rows in file order, and deduplicate on the
lowercased primary-key columns (key.lower() in the source) when all of
them are present. -/
def load_source_data (files : List Frame) (primary_key_cols : List String) : Frame :=
  let dfs := files.map standardize_column_names
  if dfs.isEmpty then ⟨[], []⟩
  else
    let cols := dedupFirst (dfs.flatMap (fun f => f.cols))
    let rows := dfs.flatMap (fun f => f.rows)
    let cleanKeys := primary_key_cols.map pyLower
    if cleanKeys.all (fun k => k ∈ cols) then
      ⟨cols, dropDupBy (rowKey cleanKeys) rows []⟩
    else
      ⟨cols, rows⟩

/-- A cell value of the typed tables: a string, an integer, or the
pandas missing value NaN. -/
inductive Value where
  | vstr : String → Value
  | vint : Int → Value
  | vnull : Value
deriving DecidableEq, Repr

/-- Model of pandas astype(str) on one cell: strings unchanged, other
values rendered as text, NaN rendered as the text "nan". -/
def valueToString : Value → String
  | .vstr s => s
  | .vint n => toString n
  | .vnull => "nan"

/-- A calendar date as carried by a pandas Timestamp. -/
structure Date where
  year : Nat
  month : Nat
  day : Nat
deriving DecidableEq, Repr

/-- Dates produced by pandas to_datetime are real calendar dates; the
field bounds used by the monotonicity proof. -/
def ValidDate (d : Date) : Prop :=
  1 ≤ d.month ∧ d.month ≤ 12 ∧ 1 ≤ d.day ∧ d.day ≤ 31

instance (d : Date) : Decidable (ValidDate d) := by
  unfold ValidDate; infer_instance

/-- Lexicographic order on dates (the order of pandas Timestamps). -/
def dateLt (a b : Date) : Prop :=
  a.year < b.year ∨ (a.year = b.year ∧
    (a.month < b.month ∨ (a.month = b.month ∧ a.day < b.day)))

instance (a b : Date) : Decidable (dateLt a b) := by
  unfold dateLt; infer_instance

def dateLe (a b : Date) : Bool :=
  decide (a = b) || decide (dateLt a b)

/-- Embedding of dt.strftime('%Y%m%d').astype(int): the integer
YYYYMMDD encoding of a date. -/
def skDateEncode (d : Date) : Nat :=
  d.year * 10000 + d.month * 100 + d.day

/-- Embedding of dt.month_name(): full English month name. -/
def monthName : Nat → String
  | 1 => "January" | 2 => "February" | 3 => "March" | 4 => "April"
  | 5 => "May" | 6 => "June" | 7 => "July" | 8 => "August"
  | 9 => "September" | 10 => "October" | 11 => "November" | 12 => "December"
  | _ => ""

/-- Embedding of dt.quarter: months 1-3 map to 1, and so on. -/
def quarterOf (m : Nat) : Nat := (m + 2) / 3

/-- A row of the loaded Orders table (columns used by the builders). -/
structure OrderRow where
  orderid : Nat
  customerid : String
  employeeid : Nat
  orderdate : Value
  shippeddate : Value
deriving DecidableEq, Repr

/-- A row of the loaded OrderDetails table. -/
structure DetailRow where
  orderid : Nat
  productid : Nat
  unitprice : ℚ
  quantity : Nat
  discount : ℚ
deriving DecidableEq, Repr

/-- A row of the loaded Customers table. -/
structure CustomerRow where
  customerid : String
  companyname : String
  city : String
  country : String
  region : String
deriving DecidableEq, Repr

/-- The loaded Customers table together with which of the optional
geography columns are actually present (the builder defaults the
absent ones to the literal "Unknown"). -/
structure CustomerFrame where
  rows : List CustomerRow
  hasCity : Bool
  hasCountry : Bool
  hasRegion : Bool
deriving DecidableEq, Repr

/-- A row of the loaded Employees table. -/
structure EmployeeRow where
  employeeid : Nat
  firstname : String
  lastname : String
  title : String
  city : String
  country : String
deriving DecidableEq, Repr

/-- A row of the loaded EmployeeTerritories assignment table. -/
structure EmpTerrRow where
  employeeid : Nat
  territoryid : Nat
deriving DecidableEq, Repr

/-- A row of the loaded Territories lookup table. -/
structure TerritoryRow where
  territoryid : Nat
  territorydescription : String
  regionid : Nat
deriving DecidableEq, Repr

/-- The loaded Territories table together with whether it carries the
regionid column (the enricher checks "'regionid' in merged.columns",
which after the first join holds exactly when the territory table has
that column). -/
structure TerrFrame where
  rows : List TerritoryRow
  hasRegion : Bool
deriving DecidableEq, Repr

/-- A row of the loaded Region lookup table. -/
structure RegionRow where
  regionid : Nat
  regiondescription : String
deriving DecidableEq, Repr

/-- A row of the DimClient output. -/
structure ClientDimRow where
  sk_client : Nat
  bk_customer_id : String
  company_name : String
  city : String
  country : String
  region : String
deriving DecidableEq, Repr

/-- The employee dimension row before territory enrichment. -/
structure EmpDimRow where
  sk_employee : Nat
  bk_employee_id : Nat
  employee_name : String
  title : String
  city : String
  country : String
deriving DecidableEq, Repr

/-- A row of the DimEmployee output (the enriched dimension). -/
structure EmployeeOutRow where
  base : EmpDimRow
  territories : String
  sales_region : String
deriving DecidableEq, Repr

/-- Embedding of create_client_dimension: copy the customer rows,
normalize the natural key to uppercase and trimmed, default absent
geography columns to "Unknown", and assign surrogate keys 1..N in row
order. -/
def create_client_dimension (c : CustomerFrame) : List ClientDimRow :=
  if c.rows = [] then []
  else
    c.rows.enum.map (fun p =>
      { sk_client := p.1 + 1,
        bk_customer_id := normKey p.2.customerid,
        company_name := p.2.companyname,
        city := if c.hasCity then p.2.city else "Unknown",
        country := if c.hasCountry then p.2.country else "Unknown",
        region := if c.hasRegion then p.2.region else "Unknown" })

/-- A row of the DimDate output. -/
structure DateRow where
  full_date : Date
  sk_date : Nat
  year : Nat
  month : Nat
  month_name : String
  quarter : Nat
deriving DecidableEq, Repr

/-- Insertion into a date-sorted list (ascending). -/
def insertDate (d : Date) : List Date → List Date
  | [] => [d]
  | e :: es => if dateLe d e then d :: e :: es else e :: insertDate d es

/-- Embedding of sort_values on the date column. -/
def sortDates : List Date → List Date
  | [] => []
  | d :: ds => insertDate d (sortDates ds)

/-- Embedding of create_date_dimension. The Python function assigns
orders_df['orderdate'] = orders_df['orderdate'].astype(str) on its
input frame, an in-place mutation of the caller's table; the embedding
passes that state explicitly and returns the updated Orders table next
to the new dimension table. The tolerant to_datetime parser is the
parse argument; values that fail to parse are dropped (dropna), the
remaining dates are deduplicated (unique) and sorted ascending. -/
def create_date_dimension (parse : String → Option Date)
    (orders : List OrderRow) : List OrderRow × List DateRow :=
  if orders = [] then (orders, [])
  else
    let orders' := orders.map (fun o =>
      { o with orderdate := Value.vstr (valueToString o.orderdate) })
    let dates := sortDates (dedupFirst
      (orders'.filterMap (fun o => parse (valueToString o.orderdate))))
    (orders', dates.map (fun d =>
      { full_date := d,
        sk_date := skDateEncode d,
        year := d.year,
        month := d.month,
        month_name := monthName d.month,
        quarter := quarterOf d.month }))

/-- A row of the assignment table after the territory and region joins
and the text cleaning: the employee key and the cleaned description
strings. A failed left-join lookup leaves NaN, which astype(str) turns
into the text "nan". -/
structure AssignRow where
  employeeid : Nat
  tdesc : String
  rdesc : String
deriving DecidableEq, Repr

/-- Cell text of an optional string as produced by astype(str) after a
left join: the value when the join matched, "nan" when it left NaN. -/
def optStr : Option String → String
  | some s => s
  | none => "nan"

/-- Python-style strip of a String. -/
def pyStrip (s : String) : String := String.mk (trimChars s.data)

/-- Embedding of merge(emp_terr_df, territories_df, on='territoryid',
how='left'). -/
def terrMerged (empTerr : List EmpTerrRow) (terrs : List TerritoryRow) :
    List (EmpTerrRow × Option TerritoryRow) :=
  leftJoin empTerr terrs (fun a => a.territoryid) (fun t => t.territoryid)
    (fun a t => (a, some t)) (fun a => (a, none))

/-- Cleaned territorydescription of a merged row:
astype(str).str.strip(). -/
def tdescOf (p : EmpTerrRow × Option TerritoryRow) : String :=
  pyStrip (optStr (p.2.map (fun t => t.territorydescription)))

/-- Embedding of the region step of add_territory_info: when a region
table is available and the merged frame carries regionid, left-join the
regions on regionid (a row whose territory lookup failed has a NaN
regionid and matches nothing); otherwise set every row's region
description to the literal "Unknown". Both description columns are then
cleaned with astype(str).str.strip(). -/
def withRegionDesc (merged : List (EmpTerrRow × Option TerritoryRow))
    (hasRegion : Bool) (regions : List RegionRow) : List AssignRow :=
  if regions ≠ [] ∧ hasRegion then
    leftJoin merged regions
      (fun p => p.2.map (fun t => t.regionid)) (fun r => some r.regionid)
      (fun p r => ⟨p.1.employeeid, tdescOf p, pyStrip r.regiondescription⟩)
      (fun p => ⟨p.1.employeeid, tdescOf p, "nan"⟩)
  else
    merged.map (fun p => ⟨p.1.employeeid, tdescOf p, "Unknown"⟩)

/-- The merged-and-cleaned assignment rows that add_territory_info
aggregates, as a function of its three enrichment inputs. -/
def assignRows (empTerr : List EmpTerrRow) (terrs : TerrFrame)
    (regions : List RegionRow) : List AssignRow :=
  withRegionDesc (terrMerged empTerr terrs.rows) terrs.hasRegion regions

/-- Group keys of a pandas groupby('employeeid'): the distinct employee
ids, in ascending order (groupby sorts its keys). -/
def empKeys (ms : List AssignRow) : List Nat :=
  ((ms.map (fun m => m.employeeid)).toFinset).sort (· ≤ ·)

/-- Embedding of the territories aggregation: per employee, all its
territory descriptions joined with ", ", in merged-row order, keeping
duplicates. -/
def territoriesAgg (ms : List AssignRow) : List (Nat × String) :=
  (empKeys ms).map (fun k =>
    (k, String.intercalate ", "
      ((ms.filter (fun m => m.employeeid = k)).map (fun m => m.tdesc))))

/-- Embedding of the regions aggregation: per employee, the distinct
region descriptions joined with ", ". Python iterates a set here, whose
order is unspecified; the embedding fixes first-occurrence order as the
deterministic representative. -/
def regionsAgg (ms : List AssignRow) : List (Nat × String) :=
  (empKeys ms).map (fun k =>
    (k, String.intercalate ", "
      (dedupFirst ((ms.filter (fun m => m.employeeid = k)).map (fun m => m.rdesc)))))

/-- The first merge-back of add_territory_info:
territories_per_employee left-joined onto the employee dimension by
natural key. -/
def terrJoin1 (dim : List EmpDimRow) (ms : List AssignRow) :
    List (EmpDimRow × Option String) :=
  leftJoin dim (territoriesAgg ms)
    (fun e => e.bk_employee_id) (fun p => p.1)
    (fun e p => (e, some p.2)) (fun e => (e, none))

/-- The second merge-back of add_territory_info: regions_per_employee
joined onto the result of the first merge-back. -/
def terrJoin2 (dim : List EmpDimRow) (ms : List AssignRow) :
    List (EmpDimRow × Option String × Option String) :=
  leftJoin (terrJoin1 dim ms) (regionsAgg ms)
    (fun q => q.1.bk_employee_id) (fun p => p.1)
    (fun q p => (q.1, q.2, some p.2)) (fun q => (q.1, q.2, none))

/-- Embedding of add_territory_info: if the assignment table or the
territory lookup is empty, every employee gets the literal "Unknown"
in both enrichment columns; otherwise the per-employee aggregates are
left-joined back onto the dimension by natural key and missing values
are filled with "No Territory" / "No Region". -/
def add_territory_info (dim : List EmpDimRow) (empTerr : List EmpTerrRow)
    (terrs : TerrFrame) (regions : List RegionRow) : List EmployeeOutRow :=
  if empTerr = [] ∨ terrs.rows = [] then
    dim.map (fun e => ⟨e, "Unknown", "Unknown"⟩)
  else
    (terrJoin2 dim (assignRows empTerr terrs regions)).map (fun t =>
      ⟨t.1, (t.2.1).getD "No Territory", (t.2.2).getD "No Region"⟩)

/-- The pre-enrichment employee dimension of
create_employee_dimension: renamed key, derived full name
(first name, a space, last name), and surrogate keys 1..N assigned in
row order. -/
def empDimBase (employees : List EmployeeRow) : List EmpDimRow :=
  employees.enum.map (fun p =>
    { sk_employee := p.1 + 1,
      bk_employee_id := p.2.employeeid,
      employee_name := p.2.firstname ++ " " ++ p.2.lastname,
      title := p.2.title,
      city := p.2.city,
      country := p.2.country })

/-- Embedding of create_employee_dimension: derive the full name,
assign surrogate keys 1..N in row order, then enrich with the
territory information. -/
def create_employee_dimension (employees : List EmployeeRow)
    (empTerr : List EmpTerrRow) (terrs : TerrFrame)
    (regions : List RegionRow) : List EmployeeOutRow :=
  if employees = [] then []
  else add_territory_info (empDimBase employees) empTerr terrs regions

/-- A row of the inner join of OrderDetails with Orders on orderid. -/
structure JoinedRow where
  d : DetailRow
  o : OrderRow
deriving DecidableEq, Repr

/-- Embedding of merge(details_df, orders_df, on='orderid',
how='inner'): every detail line paired with every matching header, in
left-row-major order; lines without a header disappear. -/
def innerJoinSales (details : List DetailRow) (orders : List OrderRow) :
    List JoinedRow :=
  details.flatMap (fun d =>
    (orders.filter (fun o => o.orderid = d.orderid)).map (fun o => ⟨d, o⟩))

/-- Embedding of the delivery_status lambda: "Delivered" when the
shipped-date cell is non-null and its text is non-blank. -/
def deliveryStatus (v : Value) : String :=
  if v ≠ Value.vnull ∧ pyStrip (valueToString v) ≠ "" then "Delivered"
  else "Not Delivered"

/-- The working row of create_sales_fact after the measure and status
columns have been computed and the customer id normalized, and through
the two dimension left-joins. -/
structure WorkRow where
  j : JoinedRow
  customeridN : String
  total_amount : ℚ
  delivery_status : String
  sk_client : Option Nat
  sk_employee : Option Nat
deriving DecidableEq, Repr

/-- A row of the FactSales output. -/
structure FactRow where
  fact_id : Nat
  bk_order_id : Nat
  sk_client : Option Nat
  sk_employee : Option Nat
  sk_date : Nat
  quantity : Nat
  unit_price : ℚ
  discount : ℚ
  total_amount : ℚ
  delivery_status : String
deriving DecidableEq, Repr

/-- The FactSales output: the selected column names (the dimension key
columns are present only when the corresponding merge ran) and the
rows. -/
structure FactFrame where
  cols : List String
  rows : List FactRow
deriving DecidableEq, Repr

/-- The date key of a fact row: the YYYYMMDD encoding of the parsed
order date, or the sentinel 19000101 when parsing fails (strftime of
NaT gives NaN, which fillna replaces by 19000101). -/
def skDateOf (parse : String → Option Date) (v : Value) : Nat :=
  match parse (valueToString v) with
  | some d => skDateEncode d
  | none => 19000101

/-- The first stage of create_sales_fact: the inner join of order
lines to order headers with the computed measure, status and
normalized customer-id columns; the dimension keys start as NaN. -/
def salesWork0 (details : List DetailRow) (orders : List OrderRow) :
    List WorkRow :=
  (innerJoinSales details orders).map (fun j =>
    { j := j,
      customeridN := normKey j.o.customerid,
      total_amount := j.d.unitprice * (j.d.quantity : ℚ) * (1 - j.d.discount),
      delivery_status := deliveryStatus j.o.shippeddate,
      sk_client := none,
      sk_employee := none })

/-- The client-dimension left-join of create_sales_fact, guarded by
"if not client_dim.empty": with an empty dimension the merge is
skipped and the sk_client column is never created. -/
def salesClientJoin (ws : List WorkRow) (client_dim : List ClientDimRow) :
    List WorkRow :=
  if client_dim = [] then ws else
    leftJoin ws client_dim
      (fun w => w.customeridN) (fun c => c.bk_customer_id)
      (fun w c => { w with sk_client := some c.sk_client }) (fun w => w)

/-- The employee-dimension left-join of create_sales_fact, guarded by
"if not employee_dim.empty". -/
def salesEmployeeJoin (ws : List WorkRow) (employee_dim : List EmployeeOutRow) :
    List WorkRow :=
  if employee_dim = [] then ws else
    leftJoin ws employee_dim
      (fun w => w.j.o.employeeid) (fun e => e.base.bk_employee_id)
      (fun w e => { w with sk_employee := some e.base.sk_employee }) (fun w => w)

/-- The final fact row built from an enumerated working row: the date
key, the renamed columns, and the surrogate fact_id. -/
def factRowOf (parse : String → Option Date) (p : Nat × WorkRow) : FactRow :=
  { fact_id := p.1 + 1,
    bk_order_id := p.2.j.d.orderid,
    sk_client := p.2.sk_client,
    sk_employee := p.2.sk_employee,
    sk_date := skDateOf parse p.2.j.o.orderdate,
    quantity := p.2.j.d.quantity,
    unit_price := p.2.j.d.unitprice,
    discount := p.2.j.d.discount,
    total_amount := p.2.total_amount,
    delivery_status := p.2.delivery_status }

/-- The present-columns-only selection of the fact output: sk_client
and sk_employee survive only when the corresponding merge ran. -/
def factCols (client_dim : List ClientDimRow)
    (employee_dim : List EmployeeOutRow) : List String :=
  ["fact_id", "bk_order_id"] ++
    (if client_dim = [] then [] else ["sk_client"]) ++
    (if employee_dim = [] then [] else ["sk_employee"]) ++
    ["sk_date", "quantity", "unit_price", "discount",
     "total_amount", "delivery_status"]

/-- Embedding of create_sales_fact: inner-join lines to headers,
compute total_amount and delivery_status, normalize the customer id,
left-join the two dimensions when they are non-empty, assign the date
key, and assign fact_id 1..N in final row order. -/
def create_sales_fact (parse : String → Option Date)
    (orders : List OrderRow) (details : List DetailRow)
    (client_dim : List ClientDimRow) (employee_dim : List EmployeeOutRow) :
    FactFrame :=
  if orders = [] ∨ details = [] then ⟨[], []⟩
  else
    ⟨factCols client_dim employee_dim,
     ((salesEmployeeJoin (salesClientJoin (salesWork0 details orders)
         client_dim) employee_dim).enum.map (factRowOf parse))⟩

theorem dropDupBy_filter {α κ : Type} [DecidableEq κ] (key : α → κ)
    (l : List α) (seen : List κ) (k : κ) :
    (dropDupBy key l seen).filter (fun r => key r = k) =
      if k ∈ seen then [] else (l.find? (fun r => key r = k)).toList := by
  induction l generalizing seen with
  | nil => simp [dropDupBy]
  | cons r rs ih =>
    by_cases hr : key r ∈ seen
    · rw [dropDupBy, if_pos hr, ih]
      by_cases hk : key r = k
      · rw [if_pos (hk ▸ hr), if_pos (hk ▸ hr)]
      · rw [List.find?_cons_of_neg _ (by simpa using hk)]
    · rw [dropDupBy, if_neg hr]
      by_cases hk : key r = k
      · subst hk
        rw [List.filter_cons_of_pos (by simp), ih,
            if_pos (List.mem_cons_self _ _), if_neg hr,
            List.find?_cons_of_pos _ (by simp)]
        rfl
      · rw [List.filter_cons_of_neg (by simpa using hk), ih,
            List.find?_cons_of_neg _ (by simpa using hk)]
        have hmem : (k ∈ key r :: seen) ↔ (k ∈ seen) := by
          constructor
          · intro h
            rcases List.mem_cons.mp h with h1 | h1
            · exact absurd h1.symm hk
            · exact h1
          · exact fun h => List.mem_cons_of_mem _ h
        by_cases hs : k ∈ seen
        · rw [if_pos (hmem.mpr hs), if_pos hs]
        · rw [if_neg (fun h => hs (hmem.mp h)), if_neg hs]

theorem find?_eq_head?_filter {α : Type} (p : α → Bool) (l : List α) :
    l.find? p = (l.filter p).head? := by
  induction l with
  | nil => rfl
  | cons a l ih =>
    by_cases h : p a
    · rw [List.find?_cons_of_pos _ h, List.filter_cons_of_pos h]
      rfl
    · rw [List.find?_cons_of_neg _ (by simpa using h),
          List.filter_cons_of_neg (by simpa using h), ih]

theorem filter_key_length_le_one {β κ : Type} [DecidableEq κ]
    (rs : List β) (kR : β → κ) (h : (rs.map kR).Nodup) (k : κ) :
    (rs.filter (fun r => kR r = k)).length ≤ 1 := by
  induction rs with
  | nil => simp
  | cons r rs ih =>
    rw [List.map_cons, List.nodup_cons] at h
    by_cases hr : kR r = k
    · rw [List.filter_cons_of_pos (by simpa using hr)]
      have : rs.filter (fun r => kR r = k) = [] := by
        rw [List.filter_eq_nil_iff]
        intro b hb hkb
        exact h.1 (hr ▸ (by simpa using hkb) ▸ List.mem_map_of_mem kR hb)
      simp [this]
    · rw [List.filter_cons_of_neg (by simpa using hr)]
      exact ih h.2

theorem leftJoin_eq_map {α β γ κ : Type} [DecidableEq κ]
    (ls : List α) (rs : List β) (kL : α → κ) (kR : β → κ)
    (comb : α → β → γ) (miss : α → γ)
    (hu : ∀ l ∈ ls, (rs.filter (fun r => kR r = kL l)).length ≤ 1) :
    leftJoin ls rs kL kR comb miss = ls.map (fun l =>
      match rs.find? (fun r => kR r = kL l) with
      | some r => comb l r
      | none => miss l) := by
  induction ls with
  | nil => rfl
  | cons l ls ih =>
    rw [leftJoin, List.flatMap_cons, List.map_cons, ← leftJoin,
        ih (fun x hx => hu x (List.mem_cons_of_mem _ hx))]
    rcases hfl : rs.filter (fun r => kR r = kL l) with _ | ⟨m, ms⟩
    · rw [find?_eq_head?_filter, hfl]
      rfl
    · have hms : ms = [] := by
        have h1 := hu l (List.mem_cons_self _ _)
        rw [hfl, List.length_cons] at h1
        exact List.length_eq_zero.mp (by omega)
      subst hms
      rw [find?_eq_head?_filter, hfl]
      rfl

theorem leftJoin_length {α β γ κ : Type} [DecidableEq κ]
    (ls : List α) (rs : List β) (kL : α → κ) (kR : β → κ)
    (comb : α → β → γ) (miss : α → γ)
    (hu : ∀ l ∈ ls, (rs.filter (fun r => kR r = kL l)).length ≤ 1) :
    (leftJoin ls rs kL kR comb miss).length = ls.length := by
  rw [leftJoin_eq_map ls rs kL kR comb miss hu, List.length_map]

theorem leftJoin_mem {α β γ κ : Type} [DecidableEq κ]
    (ls : List α) (rs : List β) (kL : α → κ) (kR : β → κ)
    (comb : α → β → γ) (miss : α → γ) (m : γ)
    (hm : m ∈ leftJoin ls rs kL kR comb miss) :
    ∃ l ∈ ls, m = miss l ∨ ∃ r ∈ rs, m = comb l r := by
  rw [leftJoin, List.mem_flatMap] at hm
  obtain ⟨l, hl, hml⟩ := hm
  refine ⟨l, hl, ?_⟩
  rcases hfl : rs.filter (fun r => kR r = kL l) with _ | ⟨x, xs⟩
  · rw [hfl] at hml
    simp at hml
    exact Or.inl hml
  · rw [hfl] at hml
    rw [List.mem_map] at hml
    obtain ⟨r, hr, hcr⟩ := hml
    have : r ∈ rs.filter (fun r => kR r = kL l) := hfl ▸ hr
    exact Or.inr ⟨r, List.mem_of_mem_filter this, hcr.symm⟩

theorem leftJoin_covers {α β γ κ : Type} [DecidableEq κ]
    (ls : List α) (rs : List β) (kL : α → κ) (kR : β → κ)
    (comb : α → β → γ) (miss : α → γ) (l : α) (hl : l ∈ ls) :
    ∃ m ∈ leftJoin ls rs kL kR comb miss,
      m = miss l ∨ ∃ r ∈ rs, m = comb l r := by
  rcases hfl : rs.filter (fun r => kR r = kL l) with _ | ⟨x, xs⟩
  · refine ⟨miss l, ?_, Or.inl rfl⟩
    rw [leftJoin, List.mem_flatMap]
    exact ⟨l, hl, by rw [hfl]; simp⟩
  · refine ⟨comb l x, ?_, Or.inr ⟨x, ?_, rfl⟩⟩
    · rw [leftJoin, List.mem_flatMap]
      exact ⟨l, hl, by rw [hfl]; simp⟩
    · exact List.mem_of_mem_filter (hfl ▸ List.mem_cons_self x xs)

theorem enumFrom_map_fst_add_one {α : Type} (l : List α) (n : Nat) :
    (List.enumFrom n l).map (fun p => p.1 + 1) = List.range' (n + 1) l.length := by
  induction l generalizing n with
  | nil => rfl
  | cons a l ih =>
    rw [List.enumFrom_cons, List.map_cons, List.length_cons, List.range'_succ, ih]

theorem enum_map_fst_add_one {α : Type} (l : List α) :
    l.enum.map (fun p => p.1 + 1) = List.range' 1 l.length :=
  enumFrom_map_fst_add_one l 0

theorem enumFrom_map_snd_comp {α β : Type} (l : List α) (n : Nat) (g : α → β) :
    (List.enumFrom n l).map (fun p => g p.2) = l.map g := by
  induction l generalizing n with
  | nil => rfl
  | cons a l ih =>
    rw [List.enumFrom_cons, List.map_cons, List.map_cons, ih]

theorem char_toNat_ofNat {m : Nat} (h : m.isValidChar) :
    (Char.ofNat m).toNat = m := by
  rw [Char.ofNat, dif_pos h, Char.ofNatAux, Char.toNat]
  simp [UInt32.toNat]

theorem toNat_toLower (c : Char) :
    (c.toLower).toNat =
      if 65 ≤ c.toNat ∧ c.toNat ≤ 90 then c.toNat + 32 else c.toNat := by
  rw [Char.toLower]
  by_cases h : c.toNat ≥ 65 ∧ c.toNat ≤ 90
  · rw [if_pos h, if_pos ⟨h.1, h.2⟩]
    exact char_toNat_ofNat (Or.inl (by omega))
  · rw [if_neg h, if_neg (fun hc => h ⟨hc.1, hc.2⟩)]

theorem toLower_toLower (c : Char) : (c.toLower).toLower = c.toLower := by
  by_cases h : 65 ≤ c.toNat ∧ c.toNat ≤ 90
  · have h1 : (c.toLower).toNat = c.toNat + 32 := by rw [toNat_toLower, if_pos h]
    rw [Char.toLower, if_neg (by rw [h1]; omega)]
  · have h1 : (c.toLower).toNat = c.toNat := by rw [toNat_toLower, if_neg h]
    rw [Char.toLower, if_neg (by rw [h1]; exact h)]

theorem pyWS_toLower (c : Char) (h : pyWS c.toLower = true) : c.toLower = c := by
  by_cases hc : 65 ≤ c.toNat ∧ c.toNat ≤ 90
  · exfalso
    have h1 : (c.toLower).toNat = c.toNat + 32 := by rw [toNat_toLower, if_pos hc]
    rw [pyWS, h1] at h
    simp at h
    omega
  · rw [Char.toLower, if_neg (fun hx => hc ⟨hx.1, hx.2⟩)]

theorem mem_trimChars {c : Char} {l : List Char} (h : c ∈ trimChars l) : c ∈ l := by
  rw [trimChars, List.mem_reverse] at h
  have h1 := (List.dropWhile_sublist pyWS).mem h
  rw [List.mem_reverse] at h1
  exact (List.dropWhile_sublist pyWS).mem h1

theorem dropWhile_eq_self_of {p : Char → Bool} {l : List Char}
    (h : ∀ c ∈ l, p c = false) : l.dropWhile p = l := by
  cases l with
  | nil => rfl
  | cons a l =>
    rw [List.dropWhile_cons, if_neg (by rw [h a (List.mem_cons_self _ _)]; simp)]

theorem trimChars_eq_self {l : List Char}
    (h : ∀ c ∈ l, pyWS c = false) : trimChars l = l := by
  rw [trimChars, dropWhile_eq_self_of h, dropWhile_eq_self_of
    (fun c hc => h c (List.mem_reverse.mp hc)), List.reverse_reverse]

theorem map_eq_self_of {α : Type} {f : α → α} {l : List α}
    (h : ∀ c ∈ l, f c = c) : l.map f = l := by
  induction l with
  | nil => rfl
  | cons a l ih =>
    rw [List.map_cons, h a (List.mem_cons_self _ _),
        ih (fun c hc => h c (List.mem_cons_of_mem _ hc))]

theorem normalizeName_no_space_underscore (s : String) :
    ∀ c ∈ (normalizeName s).data, c ≠ ' ' ∧ c ≠ '_' := by
  intro c hc
  rw [normalizeName] at hc
  have h1 : c ∈ removeChar '_' (removeChar ' '
      (trimChars (s.data.map Char.toLower))) := hc
  have hu : c ≠ '_' := by
    rw [removeChar] at h1
    have := List.of_mem_filter h1
    simpa using this
  have hs : c ≠ ' ' := by
    rw [removeChar] at h1
    have h2 := List.mem_of_mem_filter h1
    rw [removeChar] at h2
    have := List.of_mem_filter h2
    simpa using this
  exact ⟨hs, hu⟩

theorem mem_of_mem_normalizeChain {c : Char} {l : List Char}
    (h : c ∈ removeChar '_' (removeChar ' ' (trimChars l))) : c ∈ l := by
  rw [removeChar] at h
  have h1 := List.mem_of_mem_filter h
  rw [removeChar] at h1
  have h2 := List.mem_of_mem_filter h1
  exact mem_trimChars h2

theorem normalizeName_idem (s : String)
    (h : ∀ c ∈ s.data, pyWS c = true → c = ' ') :
    normalizeName (normalizeName s) = normalizeName s := by
  have hd : (normalizeName s).data =
      removeChar '_' (removeChar ' ' (trimChars (s.data.map Char.toLower))) := rfl
  set n1 := removeChar '_' (removeChar ' ' (trimChars (s.data.map Char.toLower)))
    with hn1
  have hmem : ∀ c ∈ n1, c ∈ s.data.map Char.toLower := by
    intro c hc
    exact mem_of_mem_normalizeChain (hn1 ▸ hc)
  have hfix : ∀ c ∈ n1, Char.toLower c = c := by
    intro c hc
    obtain ⟨c0, _, hc0⟩ := List.mem_map.mp (hmem c hc)
    rw [← hc0]
    exact toLower_toLower c0
  have hns : ∀ c ∈ n1, c ≠ ' ' ∧ c ≠ '_' := by
    intro c hc
    exact normalizeName_no_space_underscore s c (by rw [hd]; exact hc)
  have hws : ∀ c ∈ n1, pyWS c = false := by
    intro c hc
    by_contra hcontra
    have hwc : pyWS c = true := by
      cases hx : pyWS c
      · exact absurd hx hcontra
      · rfl
    obtain ⟨c0, hc0mem, hc0⟩ := List.mem_map.mp (hmem c hc)
    have hcl : Char.toLower c0 = c0 := pyWS_toLower c0 (by rw [hc0]; exact hwc)
    have hcc0 : c = c0 := by rw [← hc0, hcl]
    have : c0 = ' ' := h c0 hc0mem (by rw [← hcc0]; exact hwc)
    exact (hns c hc).1 (by rw [hcc0, this])
  show String.mk (removeChar '_' (removeChar ' '
    (trimChars ((normalizeName s).data.map Char.toLower)))) = normalizeName s
  rw [hd, map_eq_self_of hfix, trimChars_eq_self hws]
  have e2 : removeChar ' ' n1 = n1 :=
    List.filter_eq_self.mpr (fun c hc => by simpa using (hns c hc).1)
  have e3 : removeChar '_' n1 = n1 :=
    List.filter_eq_self.mpr (fun c hc => by simpa using (hns c hc).2)
  rw [e2, e3]
  rfl

/-- C10 counterexample: the column-name normalization is not
idempotent. The name "_\t_a" (underscore, tab, underscore, letter)
normalizes to "\ta" in one pass, because the strip step runs before the
underscore removal and cannot see the tab that the underscore removal
exposes at the front; a second pass then strips that tab and yields
"a". -/
theorem C10_standardize_not_idempotent :
    standardize_column_names (standardize_column_names ⟨["_\t_a"], []⟩) ≠
      standardize_column_names ⟨["_\t_a"], []⟩ := by
  decide

/-- C10 (amended): column-name normalization is idempotent for every
table whose column names contain no whitespace characters other than
the plain space, and every normalized column name contains no space or
underscore characters. -/
theorem C10_standardize_idempotent_on_space_only :
    (∀ f : Frame,
      (∀ s ∈ f.cols, ∀ c ∈ s.data, pyWS c = true → c = ' ') →
      (∀ r ∈ f.rows, ∀ p ∈ r, ∀ c ∈ p.1.data, pyWS c = true → c = ' ') →
      standardize_column_names (standardize_column_names f) =
        standardize_column_names f) ∧
    (∀ f : Frame, ∀ s ∈ (standardize_column_names f).cols,
      ∀ c ∈ s.data, c ≠ ' ' ∧ c ≠ '_') := by
  constructor
  · intro f hcols hrows
    rw [standardize_column_names, standardize_column_names]
    congr 1
    · rw [List.map_map]
      exact List.map_congr_left (fun s hs =>
        normalizeName_idem s (hcols s hs))
    · rw [List.map_map]
      refine List.map_congr_left (fun r hr => ?_)
      show (r.map (fun p => (normalizeName p.1, p.2))).map
          (fun p => (normalizeName p.1, p.2)) = r.map (fun p => (normalizeName p.1, p.2))
      rw [List.map_map]
      refine List.map_congr_left (fun p hp => ?_)
      show (normalizeName (normalizeName p.1), p.2) = (normalizeName p.1, p.2)
      rw [normalizeName_idem p.1 (hrows r hr p hp)]
  · intro f s hs c hc
    rw [standardize_column_names] at hs
    obtain ⟨s0, _, hs0⟩ := List.mem_map.mp hs
    exact normalizeName_no_space_underscore s0 c (by rw [hs0]; exact hc)

/-- C10 witness: the amended idempotence applied to a concrete frame
with an ordinary column name containing a space and an underscore. -/
theorem C10_standardize_idempotent_witness :
    standardize_column_names (standardize_column_names ⟨["Order ID", "Ship_Date"], [[("Order ID", "1")]]⟩) =
      standardize_column_names ⟨["Order ID", "Ship_Date"], [[("Order ID", "1")]]⟩ :=
  C10_standardize_idempotent_on_space_only.1
    ⟨["Order ID", "Ship_Date"], [[("Order ID", "1")]]⟩
    (by decide) (by decide)

theorem mem_dropDupBy_id {α : Type} [DecidableEq α] (l : List α) (seen : List α) (a : α) :
    a ∈ dropDupBy id l seen ↔ a ∈ l ∧ a ∉ seen := by
  induction l generalizing seen with
  | nil => simp [dropDupBy]
  | cons r rs ih =>
    by_cases hr : r ∈ seen
    · rw [dropDupBy]
      simp only [id_eq]
      rw [if_pos hr, ih]
      simp only [List.mem_cons]
      constructor
      · rintro ⟨h1, h2⟩
        exact ⟨Or.inr h1, h2⟩
      · rintro ⟨h1 | h1, h2⟩
        · exact absurd (by rw [h1]; exact hr) h2
        · exact ⟨h1, h2⟩
    · rw [dropDupBy]
      simp only [id_eq]
      rw [if_neg hr]
      simp only [List.mem_cons, ih, List.mem_cons]
      constructor
      · rintro (h | ⟨h1, h2⟩)
        · exact ⟨Or.inl h, by rw [h]; exact hr⟩
        · exact ⟨Or.inr h1, fun hs => h2 (Or.inr hs)⟩
      · rintro ⟨h1 | h1, h2⟩
        · exact Or.inl h1
        · by_cases har : a = r
          · exact Or.inl har
          · exact Or.inr ⟨h1, fun hs => by
              rcases hs with hs | hs
              · exact har hs
              · exact h2 hs⟩

/-- C1: Source Loader dedup. For two source files whose full
natural-key column set is present after column-name normalization
(for the natural keys of this pipeline the lowercased key names equal
their normalized forms, which the first hypothesis records), the
merged output contains exactly one row per present key value, namely
the first row in first-loaded-first order; in particular, when the two
files overlap on a key, the surviving row comes from the first file. -/
theorem C1_loader_dedup (f1 f2 : Frame) (pk : List String)
    (hlow : pk.map pyLower = pk.map normalizeName)
    (hpres : ∀ k ∈ pk.map normalizeName,
      k ∈ (standardize_column_names f1).cols ∨
      k ∈ (standardize_column_names f2).cols) :
    (∀ k : List (Option String),
      (load_source_data [f1, f2] pk).rows.filter
          (fun r => rowKey (pk.map normalizeName) r = k) =
        (((standardize_column_names f1).rows ++
          (standardize_column_names f2).rows).find?
            (fun r => rowKey (pk.map normalizeName) r = k)).toList) ∧
    (∀ r1 ∈ (standardize_column_names f1).rows,
     ∀ r2 ∈ (standardize_column_names f2).rows,
      rowKey (pk.map normalizeName) r1 = rowKey (pk.map normalizeName) r2 →
      ∃ r ∈ (standardize_column_names f1).rows,
        (load_source_data [f1, f2] pk).rows.filter
          (fun r' => rowKey (pk.map normalizeName) r' =
            rowKey (pk.map normalizeName) r1) = [r]) := by
  have hcondP : ∀ x ∈ pk.map normalizeName, x ∈
      dedupFirst ((standardize_column_names f1).cols ++
        (standardize_column_names f2).cols) := by
    intro x hx
    rw [dedupFirst, mem_dropDupBy_id]
    exact ⟨List.mem_append.mpr (hpres x hx), List.not_mem_nil _⟩
  have hrows : (load_source_data [f1, f2] pk).rows =
      dropDupBy (rowKey (pk.map normalizeName))
        ((standardize_column_names f1).rows ++
         (standardize_column_names f2).rows) [] := by
    rw [load_source_data]
    simp only [List.map_cons, List.map_nil, List.isEmpty_cons, if_false,
      Bool.false_eq_true, hlow]
    simp only [List.flatMap_cons, List.flatMap_nil, List.append_nil,
      List.all_eq_true, decide_eq_true_eq]
    rw [if_pos hcondP]
  have hmain : ∀ k : List (Option String),
      (load_source_data [f1, f2] pk).rows.filter
          (fun r => rowKey (pk.map normalizeName) r = k) =
        (((standardize_column_names f1).rows ++
          (standardize_column_names f2).rows).find?
            (fun r => rowKey (pk.map normalizeName) r = k)).toList := by
    intro k
    rw [hrows, dropDupBy_filter]
    rw [if_neg (List.not_mem_nil k)]
  refine ⟨hmain, ?_⟩
  intro r1 hr1 r2 hr2 hkey
  have hsome : ((standardize_column_names f1).rows.find?
      (fun r => rowKey (pk.map normalizeName) r =
        rowKey (pk.map normalizeName) r1)).isSome := by
    rw [List.find?_isSome]
    exact ⟨r1, hr1, by simp⟩
  rcases hf : (standardize_column_names f1).rows.find?
      (fun r => rowKey (pk.map normalizeName) r =
        rowKey (pk.map normalizeName) r1) with _ | r
  · rw [hf] at hsome
    simp at hsome
  · refine ⟨r, List.mem_of_find?_eq_some hf, ?_⟩
    rw [hmain (rowKey (pk.map normalizeName) r1), List.find?_append, hf]
    rfl

/-- C1 witness: two one-row files sharing the key value 1 in the
orderid column; the loader keeps exactly the row of the first file. -/
theorem C1_loader_dedup_witness :
    (load_source_data
        [⟨["Order ID"], [[("orderid", "1"), ("x", "a")]]⟩,
         ⟨["Order ID"], [[("orderid", "1"), ("x", "b")]]⟩]
        ["OrderID"]).rows.filter
      (fun r' => rowKey (["OrderID"].map normalizeName) r' =
        rowKey (["OrderID"].map normalizeName) [("orderid", "1"), ("x", "a")]) =
      [[("orderid", "1"), ("x", "a")]] := by
  obtain ⟨r, hrmem, hr⟩ :=
    (C1_loader_dedup
      ⟨["Order ID"], [[("orderid", "1"), ("x", "a")]]⟩
      ⟨["Order ID"], [[("orderid", "1"), ("x", "b")]]⟩
      ["OrderID"] (by decide) (by decide)).2
      [("orderid", "1"), ("x", "a")] (by decide)
      [("orderid", "1"), ("x", "b")] (by decide) (by decide)
  have : r = [("orderid", "1"), ("x", "a")] := by
    rcases List.mem_cons.mp hrmem with h | h
    · exact h
    · simp at h
  rw [hr, this]

theorem enumFrom_map_pair {α β : Type} (l : List α) (f : α → β) (n : Nat) :
    List.enumFrom n (l.map f) = (List.enumFrom n l).map (fun p => (p.1, f p.2)) := by
  induction l generalizing n with
  | nil => rfl
  | cons a l ih =>
    rw [List.map_cons, List.enumFrom_cons, List.enumFrom_cons, List.map_cons, ih]

theorem enum_map_pair {α β : Type} (l : List α) (f : α → β) :
    (l.map f).enum = l.enum.map (fun p => (p.1, f p.2)) :=
  enumFrom_map_pair l f 0

theorem salesClientJoin_eq (ws : List WorkRow) (cdim : List ClientDimRow)
    (hc : (cdim.map (fun c => c.bk_customer_id)).Nodup)
    (h0 : ∀ w ∈ ws, w.sk_client = none) :
    salesClientJoin ws cdim = ws.map (fun w =>
      { w with sk_client := (if cdim = [] then none else
          (cdim.find? (fun c => c.bk_customer_id = w.customeridN)).map
            (fun c => c.sk_client)) }) := by
  by_cases hcd : cdim = []
  · rw [salesClientJoin, if_pos hcd]
    symm
    refine map_eq_self_of (fun w hw => ?_)
    rw [if_pos hcd]
    have := h0 w hw
    cases w
    simp_all
  · rw [salesClientJoin, if_neg hcd,
        leftJoin_eq_map _ _ _ _ _ _ (fun w _ => filter_key_length_le_one cdim _ hc _)]
    refine List.map_congr_left (fun w hw => ?_)
    rw [if_neg hcd]
    rcases hf : cdim.find? (fun c => c.bk_customer_id = w.customeridN) with _ | c
    · rw [hf]
      have := h0 w hw
      cases w
      simp_all
    · rw [hf]
      simp

theorem salesEmployeeJoin_eq (ws : List WorkRow) (edim : List EmployeeOutRow)
    (he : (edim.map (fun e => e.base.bk_employee_id)).Nodup)
    (h0 : ∀ w ∈ ws, w.sk_employee = none) :
    salesEmployeeJoin ws edim = ws.map (fun w =>
      { w with sk_employee := (if edim = [] then none else
          (edim.find? (fun e => e.base.bk_employee_id = w.j.o.employeeid)).map
            (fun e => e.base.sk_employee)) }) := by
  by_cases hed : edim = []
  · rw [salesEmployeeJoin, if_pos hed]
    symm
    refine map_eq_self_of (fun w hw => ?_)
    rw [if_pos hed]
    have := h0 w hw
    cases w
    simp_all
  · rw [salesEmployeeJoin, if_neg hed,
        leftJoin_eq_map _ _ _ _ _ _ (fun w _ => filter_key_length_le_one edim _ he _)]
    refine List.map_congr_left (fun w hw => ?_)
    rw [if_neg hed]
    rcases hf : edim.find? (fun e => e.base.bk_employee_id = w.j.o.employeeid) with _ | e
    · rw [hf]
      have := h0 w hw
      cases w
      simp_all
    · rw [hf]
      simp

theorem create_sales_fact_rows (parse : String → Option Date)
    (orders : List OrderRow) (details : List DetailRow)
    (cdim : List ClientDimRow) (edim : List EmployeeOutRow)
    (hc : (cdim.map (fun c => c.bk_customer_id)).Nodup)
    (he : (edim.map (fun e => e.base.bk_employee_id)).Nodup) :
    (create_sales_fact parse orders details cdim edim).rows =
      (innerJoinSales details orders).enum.map (fun p =>
        { fact_id := p.1 + 1,
          bk_order_id := p.2.d.orderid,
          sk_client := if cdim = [] then none else
            (cdim.find? (fun c => c.bk_customer_id = normKey p.2.o.customerid)).map
              (fun c => c.sk_client),
          sk_employee := if edim = [] then none else
            (edim.find? (fun e => e.base.bk_employee_id = p.2.o.employeeid)).map
              (fun e => e.base.sk_employee),
          sk_date := skDateOf parse p.2.o.orderdate,
          quantity := p.2.d.quantity,
          unit_price := p.2.d.unitprice,
          discount := p.2.d.discount,
          total_amount := p.2.d.unitprice * (p.2.d.quantity : ℚ) * (1 - p.2.d.discount),
          delivery_status := deliveryStatus p.2.o.shippeddate }) := by
  by_cases h0 : orders = [] ∨ details = []
  · rw [create_sales_fact, if_pos h0]
    rcases h0 with h | h
    · subst h
      simp [innerJoinSales]
    · subst h
      rfl
  · rw [create_sales_fact, if_neg h0]
    have h1 : ∀ w ∈ salesWork0 details orders, w.sk_client = none := by
      intro w hw
      rw [salesWork0] at hw
      obtain ⟨j, _, hj⟩ := List.mem_map.mp hw
      rw [← hj]
    have hcEq := salesClientJoin_eq (salesWork0 details orders) cdim hc h1
    have h2 : ∀ w ∈ salesClientJoin (salesWork0 details orders) cdim,
        w.sk_employee = none := by
      intro w hw
      rw [hcEq] at hw
      obtain ⟨w0, hw0, hww⟩ := List.mem_map.mp hw
      rw [salesWork0] at hw0
      obtain ⟨j, _, hj⟩ := List.mem_map.mp hw0
      rw [← hww, ← hj]
    have heEq := salesEmployeeJoin_eq _ edim he h2
    show ((salesEmployeeJoin (salesClientJoin (salesWork0 details orders)
        cdim) edim).enum.map (factRowOf parse)) = _
    rw [heEq, hcEq, salesWork0, List.map_map, List.map_map, enum_map_pair,
        List.map_map]
    exact List.map_congr_left (fun p _ => rfl)

theorem territoriesAgg_keys_nodup (ms : List AssignRow) :
    ((territoriesAgg ms).map (fun p => p.1)).Nodup := by
  rw [territoriesAgg, List.map_map]
  have : ((fun p : Nat × String => p.1) ∘ (fun k => (k, String.intercalate ", "
      ((ms.filter (fun m => m.employeeid = k)).map (fun m => m.tdesc))))) =
      (id : Nat → Nat) := rfl
  rw [this, List.map_id]
  exact Finset.sort_nodup _ _

theorem regionsAgg_keys_nodup (ms : List AssignRow) :
    ((regionsAgg ms).map (fun p => p.1)).Nodup := by
  rw [regionsAgg, List.map_map]
  have : ((fun p : Nat × String => p.1) ∘ (fun k => (k, String.intercalate ", "
      (dedupFirst ((ms.filter (fun m => m.employeeid = k)).map (fun m => m.rdesc)))))) =
      (id : Nat → Nat) := rfl
  rw [this, List.map_id]
  exact Finset.sort_nodup _ _

theorem add_territory_info_base (dim : List EmpDimRow) (empTerr : List EmpTerrRow)
    (terrs : TerrFrame) (regions : List RegionRow) :
    (add_territory_info dim empTerr terrs regions).map (fun r => r.base) = dim := by
  rw [add_territory_info]
  by_cases h : empTerr = [] ∨ terrs.rows = []
  · rw [if_pos h, List.map_map]
    exact map_eq_self_of (fun e _ => rfl)
  · rw [if_neg h, terrJoin2,
        leftJoin_eq_map _ _ _ _ _ _ (fun q _ =>
          filter_key_length_le_one _ (fun p : Nat × String => p.1)
            (regionsAgg_keys_nodup (assignRows empTerr terrs regions)) _),
        terrJoin1,
        leftJoin_eq_map _ _ _ _ _ _ (fun e _ =>
          filter_key_length_le_one _ (fun p : Nat × String => p.1)
            (territoriesAgg_keys_nodup (assignRows empTerr terrs regions)) _),
        List.map_map, List.map_map, List.map_map]
    refine map_eq_self_of (fun e _ => ?_)
    rcases h1 : (territoriesAgg (assignRows empTerr terrs regions)).find?
        (fun p => p.1 = e.bk_employee_id) with _ | p <;>
      rcases h2 : (regionsAgg (assignRows empTerr terrs regions)).find?
          (fun p => p.1 = e.bk_employee_id) with _ | q <;>
        simp [h1, h2]

/-- A concrete tolerant date parser for the witnesses: understands the
two ISO dates appearing in the sample data, rejects everything else. -/
def parse0 : String → Option Date := fun s =>
  if s = "1996-07-04" then some ⟨1996, 7, 4⟩
  else if s = "2013-07-04" then some ⟨2013, 7, 4⟩
  else none

/-- Sample Orders table for the witnesses: one order with a parseable
date and a NaN shipped date, one with an unparseable date whose
customer id matches no dimension row. -/
def orders0 : List OrderRow :=
  [⟨1, "alfki ", 5, Value.vstr "1996-07-04", Value.vnull⟩,
   ⟨2, "zzzz", 9, Value.vstr "not-a-date", Value.vstr "1996-07-10"⟩]

/-- Sample OrderDetails table for the witnesses. -/
def details0 : List DetailRow :=
  [⟨1, 11, 10, 5, (1 : ℚ)/10⟩, ⟨2, 42, 20, 2, 0⟩]

/-- Sample Customers table for the witnesses. -/
def customers0 : CustomerFrame :=
  ⟨[⟨"alfki ", "Alfreds Futterkiste", "Berlin", "Germany", "Western"⟩,
    ⟨"anatr", "Ana Trujillo", "Mexico D.F.", "Mexico", "Central"⟩], true, true, true⟩

/-- Sample DimClient table for the witnesses. -/
def cdim0 : List ClientDimRow :=
  [⟨1, "ALFKI", "Alfreds Futterkiste", "Berlin", "Germany", "Unknown"⟩]

/-- Sample DimEmployee table for the witnesses. -/
def edim0 : List EmployeeOutRow :=
  [⟨⟨1, 5, "Steven Buchanan", "Sales Manager", "London", "UK"⟩,
    "Unknown", "Unknown"⟩]

/-- Sample Employees table for the witnesses. -/
def employees0 : List EmployeeRow :=
  [⟨5, "Steven", "Buchanan", "Sales Manager", "London", "UK"⟩,
   ⟨9, "Anne", "Dodsworth", "Sales Rep", "London", "UK"⟩]

/-- Sample EmployeeTerritories table for the witnesses: employee 5 has
two territories in the same region, employee 9 has none. -/
def empTerr0 : List EmpTerrRow := [⟨5, 2903⟩, ⟨5, 7960⟩]

/-- Sample Territories table (with a regionid column) for the
witnesses; descriptions carry stray whitespace to exercise the strip. -/
def terrs0 : TerrFrame :=
  ⟨[⟨2903, " Providence ", 1⟩, ⟨7960, "Philadelphia", 1⟩], true⟩

/-- Sample Region table for the witnesses. -/
def regions0 : List RegionRow := [⟨1, " Eastern "⟩, ⟨3, "Northern"⟩]

/-- C2: the surrogate keys of DimClient (sk_client), DimEmployee
(sk_employee) and FactSales (fact_id) each form the dense contiguous
strictly increasing sequence 1..N assigned in output row order, where
N is the output row count. -/
theorem C2_surrogate_keys_dense :
    (∀ c : CustomerFrame, c.rows ≠ [] →
      (create_client_dimension c).map (fun r => r.sk_client) =
        List.range' 1 (create_client_dimension c).length) ∧
    (∀ (employees : List EmployeeRow) (empTerr : List EmpTerrRow)
        (terrs : TerrFrame) (regions : List RegionRow), employees ≠ [] →
      (create_employee_dimension employees empTerr terrs regions).map
          (fun r => r.base.sk_employee) =
        List.range' 1
          (create_employee_dimension employees empTerr terrs regions).length) ∧
    (∀ (parse : String → Option Date) (orders : List OrderRow)
        (details : List DetailRow) (cdim : List ClientDimRow)
        (edim : List EmployeeOutRow), orders ≠ [] → details ≠ [] →
      ((create_sales_fact parse orders details cdim edim).rows).map
          (fun f => f.fact_id) =
        List.range' 1
          (create_sales_fact parse orders details cdim edim).rows.length) := by
  refine ⟨?_, ?_, ?_⟩
  · intro c hne
    rw [create_client_dimension, if_neg hne, List.map_map, List.length_map,
        List.enum_eq_enumFrom, List.enumFrom_length]
    exact enumFrom_map_fst_add_one c.rows 0
  · intro employees empTerr terrs regions hne
    rw [create_employee_dimension, if_neg hne]
    have hb := add_territory_info_base (empDimBase employees) empTerr terrs regions
    have hlen : (add_territory_info (empDimBase employees) empTerr terrs
        regions).length = employees.length := by
      have h1 := congrArg List.length hb
      rw [List.length_map] at h1
      rw [h1, empDimBase, List.length_map, List.enum_eq_enumFrom,
          List.enumFrom_length]
    calc (add_territory_info (empDimBase employees) empTerr terrs regions).map
          (fun r => r.base.sk_employee)
        = ((add_territory_info (empDimBase employees) empTerr terrs
            regions).map (fun r => r.base)).map (fun b => b.sk_employee) := by
          rw [List.map_map]
          rfl
      _ = (empDimBase employees).map (fun b => b.sk_employee) := by rw [hb]
      _ = List.range' 1 (add_territory_info (empDimBase employees) empTerr
            terrs regions).length := by
          rw [hlen, empDimBase, List.map_map]
          exact enumFrom_map_fst_add_one employees 0
  · intro parse orders details cdim edim ho hd
    rw [create_sales_fact, if_neg (not_or.mpr ⟨ho, hd⟩)]
    show ((salesEmployeeJoin (salesClientJoin (salesWork0 details orders) cdim)
        edim).enum.map (factRowOf parse)).map (fun f => f.fact_id) =
      List.range' 1 ((salesEmployeeJoin (salesClientJoin
        (salesWork0 details orders) cdim) edim).enum.map (factRowOf parse)).length
    rw [List.map_map, List.length_map, List.enum_eq_enumFrom,
        List.enumFrom_length]
    exact enumFrom_map_fst_add_one _ 0

/-- C2 witness: the three dense-key properties evaluated on the sample
tables. -/
theorem C2_surrogate_keys_dense_witness :
    ((create_client_dimension customers0).map (fun r => r.sk_client) =
      List.range' 1 (create_client_dimension customers0).length) ∧
    ((create_employee_dimension employees0 empTerr0 terrs0 regions0).map
        (fun r => r.base.sk_employee) =
      List.range' 1
        (create_employee_dimension employees0 empTerr0 terrs0 regions0).length) ∧
    (((create_sales_fact parse0 orders0 details0 cdim0 edim0).rows).map
        (fun f => f.fact_id) =
      List.range' 1
        (create_sales_fact parse0 orders0 details0 cdim0 edim0).rows.length) :=
  ⟨C2_surrogate_keys_dense.1 customers0 (by decide),
   C2_surrogate_keys_dense.2.1 employees0 empTerr0 terrs0 regions0 (by decide),
   C2_surrogate_keys_dense.2.2 parse0 orders0 details0 cdim0 edim0
     (by decide) (by decide)⟩

theorem skDateEncode_lt_of_dateLt (d1 d2 : Date) (h1 : ValidDate d1)
    (h2 : ValidDate d2) (h : dateLt d1 d2) :
    skDateEncode d1 < skDateEncode d2 := by
  obtain ⟨y1, m1, a1⟩ := d1
  obtain ⟨y2, m2, a2⟩ := d2
  rw [ValidDate] at h1 h2
  rw [dateLt] at h
  rw [skDateEncode, skDateEncode]
  simp only at h1 h2 h ⊢
  rcases h with h | ⟨hy, h⟩
  · omega
  · subst hy
    rcases h with h | ⟨hm, h⟩
    · omega
    · subst hm
      omega

theorem mem_insertDate {x d : Date} {l : List Date} (h : x ∈ insertDate d l) :
    x = d ∨ x ∈ l := by
  induction l with
  | nil => simpa [insertDate] using h
  | cons e es ih =>
    rw [insertDate] at h
    by_cases hle : dateLe d e = true
    · rw [if_pos hle] at h
      rcases List.mem_cons.mp h with h | h
      · exact Or.inl h
      · exact Or.inr h
    · rw [if_neg hle] at h
      rcases List.mem_cons.mp h with h | h
      · exact Or.inr (by rw [h]; exact List.mem_cons_self _ _)
      · rcases ih h with h | h
        · exact Or.inl h
        · exact Or.inr (List.mem_cons_of_mem _ h)

theorem mem_sortDates {x : Date} {l : List Date} (h : x ∈ sortDates l) :
    x ∈ l := by
  induction l with
  | nil => simp [sortDates] at h
  | cons d ds ih =>
    rw [sortDates] at h
    rcases mem_insertDate h with h | h
    · exact h ▸ List.mem_cons_self _ _
    · exact List.mem_cons_of_mem _ (ih h)

theorem mem_dedupFirst {α : Type} [DecidableEq α] {x : α} {l : List α}
    (h : x ∈ dedupFirst l) : x ∈ l :=
  ((mem_dropDupBy_id l [] x).mp h).1

theorem create_date_dimension_snd (parse : String → Option Date)
    (orders : List OrderRow) (h : orders ≠ []) :
    (create_date_dimension parse orders).2 =
      (sortDates (dedupFirst ((orders.map (fun o =>
          { o with orderdate := Value.vstr (valueToString o.orderdate) })).filterMap
        (fun o => parse (valueToString o.orderdate))))).map (fun d =>
        { full_date := d,
          sk_date := skDateEncode d,
          year := d.year,
          month := d.month,
          month_name := monthName d.month,
          quarter := quarterOf d.month }) := by
  rw [create_date_dimension, if_neg h]

/-- C3: the DimDate key is strictly monotone in the date. For every
tolerant parser producing calendar-valid dates, any two rows of the
built dimension with full_date in ascending order have sk_date in
ascending order; and the YYYYMMDD encoding of 2013-07-04 is 20130704. -/
theorem C3_sk_date_monotone :
    (∀ (parse : String → Option Date) (orders : List OrderRow),
      (∀ s d, parse s = some d → ValidDate d) →
      ∀ r1 ∈ (create_date_dimension parse orders).2,
      ∀ r2 ∈ (create_date_dimension parse orders).2,
        dateLt r1.full_date r2.full_date → r1.sk_date < r2.sk_date) ∧
    skDateEncode ⟨2013, 7, 4⟩ = 20130704 := by
  constructor
  · intro parse orders hv r1 h1 r2 h2 hlt
    by_cases hne : orders = []
    · rw [create_date_dimension, if_pos hne] at h1
      exact absurd h1 (List.not_mem_nil r1)
    · rw [create_date_dimension_snd parse orders hne] at h1 h2
      obtain ⟨d1, hd1, he1⟩ := List.mem_map.mp h1
      obtain ⟨d2, hd2, he2⟩ := List.mem_map.mp h2
      have hval : ∀ d, d ∈ sortDates (dedupFirst ((orders.map (fun o =>
          { o with orderdate := Value.vstr (valueToString o.orderdate) })).filterMap
            (fun o => parse (valueToString o.orderdate)))) → ValidDate d := by
        intro d hd
        obtain ⟨o, _, ho⟩ := List.mem_filterMap.mp
          (mem_dedupFirst (mem_sortDates hd))
        exact hv _ d ho
      have e1 : r1.full_date = d1 := by rw [← he1]
      have e2 : r2.full_date = d2 := by rw [← he2]
      have s1 : r1.sk_date = skDateEncode d1 := by rw [← he1]
      have s2 : r2.sk_date = skDateEncode d2 := by rw [← he2]
      rw [s1, s2]
      exact skDateEncode_lt_of_dateLt d1 d2 (hval d1 hd1) (hval d2 hd2)
        (by rw [← e1, ← e2]; exact hlt)
  · rfl

theorem parse0_valid : ∀ s d, parse0 s = some d → ValidDate d := by
  intro s d h
  rw [parse0] at h
  by_cases h1 : s = "1996-07-04"
  · rw [if_pos h1] at h
    injection h with h
    rw [← h]
    decide
  · rw [if_neg h1] at h
    by_cases h2 : s = "2013-07-04"
    · rw [if_pos h2] at h
      injection h with h
      rw [← h]
      decide
    · rw [if_neg h2] at h
      exact absurd h (by simp)

/-- Sample Orders table with two distinct parseable dates. -/
def orders1 : List OrderRow :=
  [⟨1, "alfki", 5, Value.vstr "2013-07-04", Value.vnull⟩,
   ⟨2, "anatr", 9, Value.vstr "1996-07-04", Value.vstr "x"⟩]

/-- C3 witness: on the sample orders, the 1996 row of the dimension
has a smaller sk_date than the 2013 row. -/
theorem C3_sk_date_monotone_witness :
    (⟨⟨1996, 7, 4⟩, 19960704, 1996, 7, "July", 3⟩ : DateRow).sk_date <
      (⟨⟨2013, 7, 4⟩, 20130704, 2013, 7, "July", 3⟩ : DateRow).sk_date :=
  C3_sk_date_monotone.1 parse0 orders1 parse0_valid
    ⟨⟨1996, 7, 4⟩, 19960704, 1996, 7, "July", 3⟩ (by decide)
    ⟨⟨2013, 7, 4⟩, 20130704, 2013, 7, "July", 3⟩ (by decide)
    (by decide)

/-- C9 counterexample: the DimDate builder writes back into its
input. On an Orders table whose order-date cell is the integer
20130704, the statement orders_df['orderdate'] =
orders_df['orderdate'].astype(str) rewrites the cell to the text
"20130704", so the input table after the build differs from the input
before it. -/
theorem C9_date_builder_mutates_input :
    (create_date_dimension parse0
        [⟨1, "alfki", 5, Value.vint 20130704, Value.vnull⟩]).1 ≠
      [⟨1, "alfki", 5, Value.vint 20130704, Value.vnull⟩] := by
  decide

/-- C9 (amended): the DimDate builder mutates its non-empty input only
in the order-date column, replacing each cell by its astype(str) text
rendering: every other column is unchanged, and an input whose
order-date cells are already strings comes back identical. -/
theorem C9_date_builder_frame :
    (∀ (parse : String → Option Date) (orders : List OrderRow),
      ((create_date_dimension parse orders).1).map
          (fun o => { o with orderdate := Value.vnull }) =
        orders.map (fun o => { o with orderdate := Value.vnull })) ∧
    (∀ (parse : String → Option Date) (orders : List OrderRow),
      (∀ o ∈ orders, ∃ s, o.orderdate = Value.vstr s) →
      (create_date_dimension parse orders).1 = orders) := by
  constructor
  · intro parse orders
    by_cases h : orders = []
    · rw [h]
      rfl
    · have hfst : (create_date_dimension parse orders).1 = orders.map
          (fun o => { o with orderdate := Value.vstr (valueToString o.orderdate) }) := by
        rw [create_date_dimension, if_neg h]
      rw [hfst, List.map_map]
      exact List.map_congr_left (fun o _ => rfl)
  · intro parse orders hstr
    by_cases h : orders = []
    · rw [h]
      rfl
    · have hfst : (create_date_dimension parse orders).1 = orders.map
          (fun o => { o with orderdate := Value.vstr (valueToString o.orderdate) }) := by
        rw [create_date_dimension, if_neg h]
      rw [hfst]
      refine map_eq_self_of (fun o ho => ?_)
      obtain ⟨s, hs⟩ := hstr o ho
      obtain ⟨oid, cid, eid, od, sd⟩ := o
      simp only at hs
      rw [hs]
      rfl

/-- C9 witness: the sample Orders table, whose order-date cells are
already strings, is returned unchanged by the builder. -/
theorem C9_date_builder_frame_witness :
    (create_date_dimension parse0 orders0).1 = orders0 :=
  C9_date_builder_frame.2 parse0 orders0 (by
    intro o ho
    rw [orders0] at ho
    rcases List.mem_cons.mp ho with h | h1
    · exact ⟨"1996-07-04", by rw [h]⟩
    · rcases List.mem_cons.mp h1 with h | h2
      · exact ⟨"not-a-date", by rw [h]⟩
      · exact absurd h2 (List.not_mem_nil o))

/-- C4: every joined order line is retained in the fact output, with
sk_date the YYYYMMDD encoding of its parsed order date when the
tolerant parse succeeds and the sentinel 19000101 when it fails (the
order-date cell is first rendered as text by astype(str), so a missing
date reads "nan" and fails the parse). The hypotheses record that the
dimension natural keys are unique, which holds for built dimensions. -/
theorem C4_fact_sk_date (parse : String → Option Date)
    (orders : List OrderRow) (details : List DetailRow)
    (cdim : List ClientDimRow) (edim : List EmployeeOutRow)
    (hc : (cdim.map (fun c => c.bk_customer_id)).Nodup)
    (he : (edim.map (fun e => e.base.bk_employee_id)).Nodup) :
    ((create_sales_fact parse orders details cdim edim).rows).map
        (fun f => f.sk_date) =
      (innerJoinSales details orders).map (fun j =>
        match parse (valueToString j.o.orderdate) with
        | some d => skDateEncode d
        | none => 19000101) := by
  rw [create_sales_fact_rows parse orders details cdim edim hc he, List.map_map]
  exact enumFrom_map_snd_comp (innerJoinSales details orders) 0
    (fun j => skDateOf parse j.o.orderdate)

/-- C4 witness: the sk_date column of the fact built from the sample
tables, whose second order has an unparseable date. -/
theorem C4_fact_sk_date_witness :
    ((create_sales_fact parse0 orders0 details0 cdim0 edim0).rows).map
        (fun f => f.sk_date) =
      (innerJoinSales details0 orders0).map (fun j =>
        match parse0 (valueToString j.o.orderdate) with
        | some d => skDateEncode d
        | none => 19000101) :=
  C4_fact_sk_date parse0 orders0 details0 cdim0 edim0 (by decide) (by decide)

/-- C5: referential tolerance of the Fact Builder. With a non-empty
DimClient, no fact row is dropped by the dimension lookups (the output
row count equals the joined row count), and a joined line whose
normalized customer id matches no DimClient natural key is still
present at its position with sk_client null. -/
theorem C5_fact_client_tolerance (parse : String → Option Date)
    (orders : List OrderRow) (details : List DetailRow)
    (cdim : List ClientDimRow) (edim : List EmployeeOutRow)
    (hne : cdim ≠ [])
    (hc : (cdim.map (fun c => c.bk_customer_id)).Nodup)
    (he : (edim.map (fun e => e.base.bk_employee_id)).Nodup) :
    (create_sales_fact parse orders details cdim edim).rows.length =
        (innerJoinSales details orders).length ∧
    (∀ (i : Nat) (j : JoinedRow),
      (innerJoinSales details orders)[i]? = some j →
      normKey j.o.customerid ∉ cdim.map (fun c => c.bk_customer_id) →
      ∃ f : FactRow,
        (create_sales_fact parse orders details cdim edim).rows[i]? = some f ∧
        f.sk_client = none) := by
  rw [create_sales_fact_rows parse orders details cdim edim hc he]
  constructor
  · rw [List.length_map, List.enum_eq_enumFrom, List.enumFrom_length]
  · intro i j hj hnot
    rw [List.getElem?_map, List.enum_eq_enumFrom, List.getElem?_enumFrom, hj]
    simp only [Option.map_some']
    refine ⟨_, rfl, ?_⟩
    show (if cdim = [] then none else
      (cdim.find? (fun c => c.bk_customer_id = normKey j.o.customerid)).map
        (fun c => c.sk_client)) = none
    rw [if_neg hne]
    have hfn : cdim.find?
        (fun c => c.bk_customer_id = normKey j.o.customerid) = none := by
      rw [List.find?_eq_none]
      intro c hcmem
      simp only [decide_eq_true_eq]
      intro heq
      exact hnot (heq ▸ List.mem_map_of_mem (fun c => c.bk_customer_id) hcmem)
    rw [hfn]
    rfl

/-- C5 witness: the second joined line of the sample data has customer
id "zzzz", matching no DimClient row; it is present in the output with
a null sk_client. -/
theorem C5_fact_client_tolerance_witness :
    ∃ f : FactRow,
      (create_sales_fact parse0 orders0 details0 cdim0 edim0).rows[1]? =
        some f ∧ f.sk_client = none :=
  (C5_fact_client_tolerance parse0 orders0 details0 cdim0 edim0
      (by decide) (by decide) (by decide)).2 1
    ⟨⟨2, 42, 20, 2, 0⟩, ⟨2, "zzzz", 9, Value.vstr "not-a-date",
      Value.vstr "1996-07-10"⟩⟩
    (by decide) (by decide)

/-- C7 counterexample: with non-empty Orders and OrderDetails and an
empty DimClient, the fact rows are all present, but the output has no
sk_client column at all — the guarded merge never creates it and the
final present-columns-only selection drops it — rather than carrying a
null sk_client foreign key as the claim states. -/
theorem C7_fact_empty_dim_counterexample :
    (create_sales_fact parse0 orders0 details0 [] edim0).rows.length = 2 ∧
    "sk_client" ∉ (create_sales_fact parse0 orders0 details0 [] edim0).cols := by
  constructor
  · decide
  · decide

/-- C7 (amended): for non-empty Orders and OrderDetails, a fact build
over an empty DimClient (respectively DimEmployee) does not fail hard:
every joined order line yields exactly one output row, and the output
simply omits the sk_client (respectively sk_employee) column instead
of carrying nulls. -/
theorem C7_fact_empty_dim_cascade (parse : String → Option Date)
    (orders : List OrderRow) (details : List DetailRow)
    (cdim : List ClientDimRow) (edim : List EmployeeOutRow)
    (ho : orders ≠ []) (hd : details ≠ [])
    (hc : (cdim.map (fun c => c.bk_customer_id)).Nodup)
    (he : (edim.map (fun e => e.base.bk_employee_id)).Nodup) :
    ((create_sales_fact parse orders details [] edim).rows.length =
        (innerJoinSales details orders).length ∧
      "sk_client" ∉ (create_sales_fact parse orders details [] edim).cols) ∧
    ((create_sales_fact parse orders details cdim []).rows.length =
        (innerJoinSales details orders).length ∧
      "sk_employee" ∉ (create_sales_fact parse orders details cdim []).cols) := by
  have hno := not_or.mpr (And.intro ho hd)
  constructor
  · constructor
    · rw [create_sales_fact_rows parse orders details [] edim (by simp) he,
          List.length_map, List.enum_eq_enumFrom, List.enumFrom_length]
    · rw [create_sales_fact, if_neg hno]
      show "sk_client" ∉ factCols [] edim
      rw [factCols, if_pos rfl]
      by_cases hed : edim = []
      · rw [if_pos hed]
        decide
      · rw [if_neg hed]
        decide
  · constructor
    · rw [create_sales_fact_rows parse orders details cdim [] hc (by simp),
          List.length_map, List.enum_eq_enumFrom, List.enumFrom_length]
    · rw [create_sales_fact, if_neg hno]
      show "sk_employee" ∉ factCols cdim []
      rw [factCols]
      by_cases hcd : cdim = []
      · rw [if_pos hcd, if_pos rfl]
        decide
      · rw [if_neg hcd, if_pos rfl]
        decide

/-- C7 witness: the amended cascade behavior on the sample tables. -/
theorem C7_fact_empty_dim_cascade_witness :
    ((create_sales_fact parse0 orders0 details0 [] edim0).rows.length =
        (innerJoinSales details0 orders0).length ∧
      "sk_client" ∉ (create_sales_fact parse0 orders0 details0 [] edim0).cols) ∧
    ((create_sales_fact parse0 orders0 details0 cdim0 []).rows.length =
        (innerJoinSales details0 orders0).length ∧
      "sk_employee" ∉ (create_sales_fact parse0 orders0 details0 cdim0 []).cols) :=
  C7_fact_empty_dim_cascade parse0 orders0 details0 cdim0 edim0
    (by decide) (by decide) (by decide) (by decide)

/-- A post-dedup Customers table whose raw customer ids are pairwise
distinct but collide after uppercasing and trimming. -/
def customersDup : CustomerFrame :=
  ⟨[⟨"alfki", "A", "x", "y", "z"⟩, ⟨"ALFKI ", "B", "x", "y", "z"⟩],
   true, true, true⟩

/-- C8 counterexample: the loader dedup compares raw cell values, so a
table whose raw customer ids "alfki" and "ALFKI " are distinct
survives dedup intact, yet both normalize to the same bk_customer_id
"ALFKI" in DimClient — the output natural keys are not pairwise
distinct. -/
theorem C8_client_bk_not_unique_counterexample :
    ((customersDup.rows.map (fun r => r.customerid)).Nodup) ∧
    ¬ ((create_client_dimension customersDup).map
        (fun r => r.bk_customer_id)).Nodup := by
  constructor
  · decide
  · decide

/-- C8 (amended): the DimClient natural keys are pairwise distinct for
every customers table whose raw customer ids are pairwise distinct
(the loader dedup guarantee) and remain distinct after the
uppercase/trim normalization. -/
theorem C8_client_bk_unique (c : CustomerFrame)
    (hroot : (c.rows.map (fun r => r.customerid)).Nodup)
    (hinj : ∀ s1 ∈ c.rows.map (fun r => r.customerid),
            ∀ s2 ∈ c.rows.map (fun r => r.customerid),
            normKey s1 = normKey s2 → s1 = s2) :
    ((create_client_dimension c).map (fun r => r.bk_customer_id)).Nodup := by
  by_cases h : c.rows = []
  · rw [create_client_dimension, if_pos h]
    simp
  · have hmap : (create_client_dimension c).map (fun r => r.bk_customer_id) =
        c.rows.map (fun r => normKey r.customerid) := by
      rw [create_client_dimension, if_neg h, List.map_map]
      exact enumFrom_map_snd_comp c.rows 0 (fun r => normKey r.customerid)
    have hsplit : c.rows.map (fun r => normKey r.customerid) =
        (c.rows.map (fun r => r.customerid)).map normKey := by
      rw [List.map_map]
      rfl
    rw [hmap, hsplit]
    exact hroot.map_on hinj

/-- C8 witness: the sample Customers table has distinct raw ids that
stay distinct after normalization, so its DimClient keys are unique. -/
theorem C8_client_bk_unique_witness :
    ((create_client_dimension customers0).map
        (fun r => r.bk_customer_id)).Nodup :=
  C8_client_bk_unique customers0 (by decide) (by decide)

theorem find?_keyed_map {β : Type} (ks : List Nat) (f : Nat → β) (b : Nat) :
    (ks.map (fun k => (k, f k))).find? (fun p => p.1 = b) =
      if b ∈ ks then some (b, f b) else none := by
  induction ks with
  | nil => simp
  | cons k ks ih =>
    by_cases hk : k = b
    · subst hk
      rw [List.map_cons, List.find?_cons_of_pos _ (by simp),
          if_pos (List.mem_cons_self _ _)]
    · rw [List.map_cons, List.find?_cons_of_neg _ (by simpa using hk), ih]
      by_cases hb : b ∈ ks
      · rw [if_pos hb, if_pos (List.mem_cons_of_mem _ hb)]
      · rw [if_neg hb, if_neg (fun hx => by
          rcases List.mem_cons.mp hx with h | h
          · exact hk h.symm
          · exact hb h)]

theorem mem_empKeys (ms : List AssignRow) (b : Nat) :
    b ∈ empKeys ms ↔ b ∈ ms.map (fun m => m.employeeid) := by
  rw [empKeys, Finset.mem_sort, List.mem_toFinset]

theorem find?_congr_pred {α : Type} (l : List α) (p q : α → Bool)
    (h : ∀ a, p a = q a) : l.find? p = l.find? q := by
  induction l with
  | nil => rfl
  | cons a l ih =>
    by_cases ha : p a
    · rw [List.find?_cons_of_pos _ ha, List.find?_cons_of_pos _ (h a ▸ ha)]
    · rw [List.find?_cons_of_neg _ (by simpa using ha),
          List.find?_cons_of_neg _ (by rw [← h a]; simpa using ha), ih]

theorem assignRows_employeeid_mem (empTerr : List EmpTerrRow)
    (terrs : TerrFrame) (regions : List RegionRow) :
    ∀ m ∈ assignRows empTerr terrs regions,
      m.employeeid ∈ empTerr.map (fun a => a.employeeid) := by
  intro m hm
  rw [assignRows, withRegionDesc] at hm
  have hstep : ∃ p ∈ terrMerged empTerr terrs.rows, m.employeeid = p.1.employeeid := by
    by_cases hr : regions ≠ [] ∧ terrs.hasRegion = true
    · rw [if_pos hr] at hm
      obtain ⟨p, hp, hcase⟩ := leftJoin_mem _ _ _ _ _ _ m hm
      rcases hcase with h | ⟨r, _, h⟩
      · exact ⟨p, hp, by rw [h]⟩
      · exact ⟨p, hp, by rw [h]⟩
    · rw [if_neg hr] at hm
      obtain ⟨p, hp, hpm⟩ := List.mem_map.mp hm
      exact ⟨p, hp, by rw [← hpm]⟩
  obtain ⟨p, hp, hpe⟩ := hstep
  rw [terrMerged] at hp
  obtain ⟨a, ha, hcase⟩ := leftJoin_mem _ _ _ _ _ _ p hp
  have hpa : p.1 = a := by
    rcases hcase with h | ⟨t, _, h⟩
    · rw [h]
    · rw [h]
  rw [hpe, hpa]
  exact List.mem_map_of_mem _ ha

theorem add_territory_info_char (dim : List EmpDimRow) (empTerr : List EmpTerrRow)
    (terrs : TerrFrame) (regions : List RegionRow)
    (h1 : empTerr ≠ []) (h2 : terrs.rows ≠ []) :
    add_territory_info dim empTerr terrs regions = dim.map (fun e =>
      if e.bk_employee_id ∈ (assignRows empTerr terrs regions).map
          (fun m => m.employeeid) then
        ⟨e,
         String.intercalate ", " (((assignRows empTerr terrs regions).filter
           (fun m => m.employeeid = e.bk_employee_id)).map (fun m => m.tdesc)),
         String.intercalate ", " (dedupFirst (((assignRows empTerr terrs
           regions).filter (fun m => m.employeeid = e.bk_employee_id)).map
             (fun m => m.rdesc)))⟩
      else ⟨e, "No Territory", "No Region"⟩) := by
  rw [add_territory_info, if_neg (not_or.mpr ⟨h1, h2⟩), terrJoin2,
      leftJoin_eq_map _ _ _ _ _ _ (fun q _ =>
        filter_key_length_le_one _ (fun p : Nat × String => p.1)
          (regionsAgg_keys_nodup (assignRows empTerr terrs regions)) _),
      terrJoin1,
      leftJoin_eq_map _ _ _ _ _ _ (fun e _ =>
        filter_key_length_le_one _ (fun p : Nat × String => p.1)
          (territoriesAgg_keys_nodup (assignRows empTerr terrs regions)) _),
      List.map_map, List.map_map]
  refine List.map_congr_left (fun e _ => ?_)
  by_cases hm : e.bk_employee_id ∈ empKeys (assignRows empTerr terrs regions)
  · rw [if_pos ((mem_empKeys _ _).mp hm)]
    simp only [Function.comp_apply]
    rw [territoriesAgg, find?_keyed_map, if_pos hm]
    rw [regionsAgg, find?_keyed_map]
    simp only [if_pos hm]
    rfl
  · rw [if_neg (fun hx => hm ((mem_empKeys _ _).mpr hx))]
    simp only [Function.comp_apply]
    rw [territoriesAgg, find?_keyed_map, if_neg hm]
    rw [regionsAgg, find?_keyed_map]
    simp only [if_neg hm]
    rfl

theorem assignRows_eq_map (empTerr : List EmpTerrRow) (terrs : TerrFrame)
    (regions : List RegionRow)
    (ht : (terrs.rows.map (fun t => t.territoryid)).Nodup)
    (hr : regions ≠ [] ∧ terrs.hasRegion = true)
    (hrn : (regions.map (fun r => r.regionid)).Nodup) :
    assignRows empTerr terrs regions = empTerr.map (fun a =>
      ⟨a.employeeid,
       pyStrip (optStr ((terrs.rows.find?
           (fun t => t.territoryid = a.territoryid)).map
         (fun t => t.territorydescription))),
       match terrs.rows.find? (fun t => t.territoryid = a.territoryid) with
       | none => "nan"
       | some t =>
         match regions.find? (fun r => r.regionid = t.regionid) with
         | none => "nan"
         | some r => pyStrip r.regiondescription⟩) := by
  have hsome : (regions.map (fun r => some r.regionid)).Nodup := by
    have hcomp : (fun r : RegionRow => some r.regionid) =
        (fun n : Nat => some n) ∘ (fun r : RegionRow => r.regionid) := rfl
    rw [hcomp, ← List.map_map]
    exact hrn.map (Option.some_injective Nat)
  rw [assignRows, withRegionDesc, if_pos hr, terrMerged,
      leftJoin_eq_map _ _ _ _ _ _ (fun a _ =>
        filter_key_length_le_one _ _ ht _),
      leftJoin_eq_map _ _ _ _ _ _ (fun p _ =>
        filter_key_length_le_one _ (fun r : RegionRow => some r.regionid) hsome _),
      List.map_map]
  refine List.map_congr_left (fun a _ => ?_)
  simp only [Function.comp_apply]
  rcases hft : terrs.rows.find? (fun t => t.territoryid = a.territoryid) with _ | t
  · simp only [hft, Option.map_none']
    rw [List.find?_eq_none.mpr (fun r _ => by simp)]
    rfl
  · simp only [hft, Option.map_some']
    rw [find?_congr_pred regions
        (fun r => decide (some r.regionid = some t.regionid))
        (fun r => decide (r.regionid = t.regionid)) (fun r => by simp)]
    rcases hfr : regions.find? (fun r => r.regionid = t.regionid) with _ | r
    · simp only [hfr]
      rfl
    · simp only [hfr]
      rfl

/-- C6: the Territory Enricher distinguishes the two absence cases.
With an empty assignment table or an empty territory lookup, every
employee gets "Unknown" in both enrichment columns. Otherwise an
employee with no assignment rows gets "No Territory" / "No Region",
while an employee with assignments gets all its looked-up, trimmed
territory descriptions joined with ", " (duplicates and order
preserved) and the distinct set of its region descriptions joined with
", " (the embedding fixes first-occurrence order for the Python set
iteration; a failed lookup reads "nan" through astype(str)). The third
part assumes unique territory and region keys and an available region
join, the shape of the loaded lookup tables. -/
theorem C6_territory_enricher :
    (∀ (dim : List EmpDimRow) (empTerr : List EmpTerrRow) (terrs : TerrFrame)
        (regions : List RegionRow), (empTerr = [] ∨ terrs.rows = []) →
      ∀ r ∈ add_territory_info dim empTerr terrs regions,
        r.territories = "Unknown" ∧ r.sales_region = "Unknown") ∧
    (∀ (dim : List EmpDimRow) (empTerr : List EmpTerrRow) (terrs : TerrFrame)
        (regions : List RegionRow), empTerr ≠ [] → terrs.rows ≠ [] →
      ∀ (i : Nat) (e : EmpDimRow), dim[i]? = some e →
        e.bk_employee_id ∉ empTerr.map (fun a => a.employeeid) →
        (add_territory_info dim empTerr terrs regions)[i]? =
          some ⟨e, "No Territory", "No Region"⟩) ∧
    (∀ (dim : List EmpDimRow) (empTerr : List EmpTerrRow) (terrs : TerrFrame)
        (regions : List RegionRow), empTerr ≠ [] → terrs.rows ≠ [] →
      (terrs.rows.map (fun t => t.territoryid)).Nodup →
      (regions ≠ [] ∧ terrs.hasRegion = true) →
      (regions.map (fun r => r.regionid)).Nodup →
      ∀ (i : Nat) (e : EmpDimRow), dim[i]? = some e →
        e.bk_employee_id ∈ empTerr.map (fun a => a.employeeid) →
        (add_territory_info dim empTerr terrs regions)[i]? = some
          ⟨e,
           String.intercalate ", "
             ((empTerr.filter (fun a => a.employeeid = e.bk_employee_id)).map
               (fun a => pyStrip (optStr ((terrs.rows.find?
                   (fun t => t.territoryid = a.territoryid)).map
                 (fun t => t.territorydescription))))),
           String.intercalate ", " (dedupFirst
             ((empTerr.filter (fun a => a.employeeid = e.bk_employee_id)).map
               (fun a =>
                 match terrs.rows.find?
                     (fun t => t.territoryid = a.territoryid) with
                 | none => "nan"
                 | some t =>
                   match regions.find? (fun r => r.regionid = t.regionid) with
                   | none => "nan"
                   | some r => pyStrip r.regiondescription)))⟩) := by
  refine ⟨?_, ?_, ?_⟩
  · intro dim empTerr terrs regions h r hr
    rw [add_territory_info, if_pos h] at hr
    obtain ⟨e, _, he⟩ := List.mem_map.mp hr
    rw [← he]
    exact ⟨rfl, rfl⟩
  · intro dim empTerr terrs regions h1 h2 i e hdim hnot
    rw [add_territory_info_char dim empTerr terrs regions h1 h2,
        List.getElem?_map, hdim, Option.map_some']
    rw [if_neg (fun hx => ?_)]
    obtain ⟨m, hm, hme⟩ := List.mem_map.mp hx
    have := assignRows_employeeid_mem empTerr terrs regions m hm
    rw [hme] at this
    exact hnot this
  · intro dim empTerr terrs regions h1 h2 ht hr hrn i e hdim hmem
    have hms := assignRows_eq_map empTerr terrs regions ht hr hrn
    rw [add_territory_info_char dim empTerr terrs regions h1 h2,
        List.getElem?_map, hdim, Option.map_some', hms]
    have hcond : e.bk_employee_id ∈ (empTerr.map (fun a =>
        (⟨a.employeeid,
          pyStrip (optStr ((terrs.rows.find?
              (fun t => t.territoryid = a.territoryid)).map
            (fun t => t.territorydescription))),
          match terrs.rows.find? (fun t => t.territoryid = a.territoryid) with
          | none => "nan"
          | some t =>
            match regions.find? (fun r => r.regionid = t.regionid) with
            | none => "nan"
            | some r => pyStrip r.regiondescription⟩ : AssignRow))).map
        (fun m => m.employeeid) := by
      rw [List.map_map]
      exact hmem
    rw [if_pos hcond]
    simp only [List.filter_map, List.map_map]
    rfl

/-- C6 witness: on the sample tables, an empty assignment table gives
"Unknown", employee 9 (no assignments) gets the no-territory defaults,
and employee 5 gets its trimmed descriptions aggregated. -/
theorem C6_territory_enricher_witness :
    ((⟨⟨1, 5, "Steven Buchanan", "Sales Manager", "London", "UK"⟩,
        "Unknown", "Unknown"⟩ : EmployeeOutRow).territories = "Unknown" ∧
     (⟨⟨1, 5, "Steven Buchanan", "Sales Manager", "London", "UK"⟩,
        "Unknown", "Unknown"⟩ : EmployeeOutRow).sales_region = "Unknown") ∧
    ((add_territory_info (empDimBase employees0) empTerr0 terrs0 regions0)[1]? =
      some ⟨⟨2, 9, "Anne Dodsworth", "Sales Rep", "London", "UK"⟩,
        "No Territory", "No Region"⟩) ∧
    ((add_territory_info (empDimBase employees0) empTerr0 terrs0 regions0)[0]? =
      some ⟨⟨1, 5, "Steven Buchanan", "Sales Manager", "London", "UK"⟩,
        String.intercalate ", " ((empTerr0.filter
            (fun a => a.employeeid = 5)).map
          (fun a => pyStrip (optStr ((terrs0.rows.find?
              (fun t => t.territoryid = a.territoryid)).map
            (fun t => t.territorydescription))))),
        String.intercalate ", " (dedupFirst ((empTerr0.filter
            (fun a => a.employeeid = 5)).map
          (fun a =>
            match terrs0.rows.find? (fun t => t.territoryid = a.territoryid) with
            | none => "nan"
            | some t =>
              match regions0.find? (fun r => r.regionid = t.regionid) with
              | none => "nan"
              | some r => pyStrip r.regiondescription)))⟩) :=
  ⟨C6_territory_enricher.1 (empDimBase employees0) [] terrs0 regions0
     (Or.inl rfl)
     ⟨⟨1, 5, "Steven Buchanan", "Sales Manager", "London", "UK"⟩,
       "Unknown", "Unknown"⟩ (by decide),
   C6_territory_enricher.2.1 (empDimBase employees0) empTerr0 terrs0 regions0
     (by decide) (by decide) 1
     ⟨2, 9, "Anne Dodsworth", "Sales Rep", "London", "UK"⟩
     (by decide) (by decide),
   C6_territory_enricher.2.2 (empDimBase employees0) empTerr0 terrs0 regions0
     (by decide) (by decide) (by decide) ⟨by decide, rfl⟩ (by decide) 0
     ⟨1, 5, "Steven Buchanan", "Sales Manager", "London", "UK"⟩
     (by decide) (by decide)⟩
